import Mathlib

/-!
Shallow embedding of `src/aibrite/ml/analyser.py` (the job-orchestration
subsystem of the aibrite ml-framework): per-job metric accumulation
(`AnalyserJob`), the worker-side unit of work (`_start_job`), and the
coordinator (`NeuralNetAnalyser` with `submit` / `start` /
`_append_job_data`).

Modelling conventions:
* Python dict values are modelled by the inductive `Value` (ints, strings,
  and rationals standing in for the floating-point metric values, whose
  arithmetic is never performed by this file's code — they are only carried
  through records).
* A Python dict is modelled as an association list `Dict` together with the
  lookup function `dget`.  A dict literal never has duplicate keys, and
  lookup returns the value written last; since `dget` returns the first
  match in the list, the Python merge `{**a, **b}` (keys of `b` win) is
  modelled by `dmerge a b = b ++ a`.  Insertion order of columns is
  presentational only and no claim depends on it.
* `datetime.datetime.now()` is nondeterministic input; each operation takes
  the observed timestamp `now` as an explicit argument.
* `uuid.uuid4()` is nondeterministic input; generated ids are explicit
  `String` arguments.
* `threading.Lock`-guarded appends are atomic in the sequential model of the
  methods; the interleaved multi-thread semantics of the guarded append is
  modelled separately by the `LStep` transition system below.
-/

inductive Value where
  | vInt : Int → Value
  | vStr : String → Value
  | vRat : Rat → Value
deriving DecidableEq, Repr

/-- A Python dict, as an association list from string keys to values. -/
abbrev Dict : Type := List (String × Value)

/-- Python dict lookup `d[k]` / `d.get(k)`: the first binding of `k` wins
(dict literals are duplicate-free and later writes are modelled by
prepending, see `dmerge`). -/
def dget : Dict → String → Option Value
  | [], _ => none
  | (k, v) :: rest, key => if k = key then some v else dget rest key

/-- Python dict merge `{**a, **b}`: bindings of `b` take precedence over
bindings of `a`.  Since `dget` returns the first match, precedence is
modelled by putting `b` in front. -/
def dmerge (a b : Dict) : Dict := b ++ a

/-- Option choice: first value if present, else second (lookup through a
merge chain). -/
def por (a b : Option Value) : Option Value :=
  match a with
  | some v => some v
  | none => b

/-- The classifier capability, an external collaborator: what
`analyser.py` reads off a neural-net instance — its class name
(`neuralnet.__class__.__name__`), its stable `instance_id`, and
`get_hyperparameters()`. -/
structure NNInstance where
  className : String
  instance_id : String
  hyper : Dict
deriving DecidableEq

/-- The scoring capability, an external collaborator: the report returned
by `NeuralNet.score_report`, exposing per-label arrays, an aggregate
`totals` tuple and a scalar `accuracy`. -/
structure ScoreReport where
  labels : List String
  precision : List Rat
  «recall» : List Rat
  f1 : List Rat
  support : List Rat
  totals : Rat × Rat × Rat × Rat
  accuracy : Rat
deriving DecidableEq

/-- `AnalyserJob`: per-job state.  `_predlock` / `_trainlock` have no
sequential content; the sequences they guard are `prediction_data` and
`train_data`. -/
structure AnalyserJob where
  id : String
  status : String
  train_data : List Dict
  prediction_data : List Dict
deriving DecidableEq

/-- `AnalyserJob.__init__`; the uuid4 id is nondeterministic input. -/
def mkJob (id : String) : AnalyserJob :=
  { id := id, status := "created", train_data := [], prediction_data := [] }

/-- The `base_cols` dict built inside `add_to_train_log`. -/
def trainBaseCols (nn : NNInstance) (now : Int) : Dict :=
  [("timestamp", .vInt now),
   ("classifier", .vStr nn.className),
   ("classifier_id", .vStr nn.instance_id)]

/-- The record `data = {**base_cols, **train_data, **hyper_parameters,
**extra_data}` built inside `add_to_train_log`. -/
def trainRecord (nn : NNInstance) (now : Int) (train_data extra_data : Dict) : Dict :=
  dmerge (dmerge (dmerge (trainBaseCols nn now) train_data) nn.hyper) extra_data

/-- `AnalyserJob.add_to_train_log(neuralnet, train_data, extra_data=None)`:
defaults `extra_data` to `{}`, builds the merged record, appends it to
`_train_data` under `_trainlock`, and returns it.  Result: updated job and
returned record. -/
def add_to_train_log (job : AnalyserJob) (nn : NNInstance) (now : Int)
    (train_data : Dict) (extra_data : Option Dict) : AnalyserJob × Dict :=
  let extra := extra_data.getD []
  let data := trainRecord nn now train_data extra
  ({ job with train_data := job.train_data ++ [data] }, data)

/-- One per-label row computed by the loop in `add_to_prediction_log`
(index `i` into the score report's equal-length per-label arrays; the
`getD` defaults are never reached for a well-formed report). -/
def predPerLabelRow (nn : NNInstance) (now : Int) (test_set_id : String)
    (score : ScoreReport) (extra : Dict) (i : Nat) : Dict :=
  dmerge (dmerge
    [("timestamp", .vInt now),
     ("classifier", .vStr nn.className),
     ("classifier_id", .vStr nn.instance_id),
     ("test_set", .vStr test_set_id),
     ("precision", .vRat (score.precision.getD i 0)),
     ("recall", .vRat (score.«recall».getD i 0)),
     ("accuracy", .vRat score.accuracy),
     ("f1", .vRat (score.f1.getD i 0)),
     ("label", .vStr (score.labels.getD i "")),
     ("support", .vRat (score.support.getD i 0)),
     ("job_id", .vInt 1)] nn.hyper) extra

/-- All per-label rows computed by the `for i, v in enumerate(score.labels)`
loop.  The loop variable `data` is overwritten after the loop, so these rows
are computed but never persisted. -/
def predPerLabelRows (nn : NNInstance) (now : Int) (test_set_id : String)
    (score : ScoreReport) (extra : Dict) : List Dict :=
  (List.range score.labels.length).map (predPerLabelRow nn now test_set_id score extra)

/-- The totals record built after the loop in `add_to_prediction_log`:
`precision, recall, f1, support = score.totals`, `label="__totals__"`,
`job_id` the literal `1`, merged as `{**base_cols, **hyper_parameters,
**extra_data}`. -/
def predTotalsRecord (nn : NNInstance) (now : Int) (test_set_id : String)
    (score : ScoreReport) (extra : Dict) : Dict :=
  dmerge (dmerge
    [("timestamp", .vInt now),
     ("classifier", .vStr nn.className),
     ("classifier_id", .vStr nn.instance_id),
     ("test_set", .vStr test_set_id),
     ("precision", .vRat score.totals.1),
     ("recall", .vRat score.totals.2.1),
     ("accuracy", .vRat score.accuracy),
     ("f1", .vRat score.totals.2.2.1),
     ("support", .vRat score.totals.2.2.2),
     ("label", .vStr "__totals__"),
     ("job_id", .vInt 1)] nn.hyper) extra

/-- `AnalyserJob.add_to_prediction_log(neuralnet, test_set_id, score,
extra_data=None)`: defaults `extra_data` to `{}`, computes the per-label
rows (discarded), builds the totals record, appends it to
`_prediction_data` under `_predlock`, and returns it. -/
def add_to_prediction_log (job : AnalyserJob) (nn : NNInstance) (now : Int)
    (test_set_id : String) (score : ScoreReport) (extra_data : Option Dict) :
    AnalyserJob × Dict :=
  let extra := extra_data.getD []
  let _perLabel := predPerLabelRows nn now test_set_id score extra
  let data := predTotalsRecord nn now test_set_id score extra
  ({ job with prediction_data := job.prediction_data ++ [data] }, data)

/-- The training phase of `_start_job`: `neuralnet.train(...)` invokes the
callback once per training iteration with the iteration's data
(`train_data._asdict()`); the training algorithm itself is an external
collaborator, so the sequence of per-iteration dicts is an input.  Each
callback invocation is `job.add_to_train_log(neuralnet, ...)` with no
extra data. -/
def trainPhase (nn : NNInstance) (now : Int) (iters : List Dict)
    (job : AnalyserJob) : AnalyserJob :=
  iters.foldl (fun j it => (add_to_train_log j nn now it none).1) job

/-- The prediction phase of `_start_job`: for each named test set, run
`predict` and `score_report` (both external; their composite effect is the
`ScoreReport` paired with the test-set id) and call
`job.add_to_prediction_log(neuralnet, test_set_id, score)`. -/
def predictPhase (nn : NNInstance) (now : Int)
    (tests : List (String × ScoreReport)) (job : AnalyserJob) : AnalyserJob :=
  tests.foldl (fun j p => (add_to_prediction_log j nn now p.1 p.2 none).1) job

/-- `NeuralNetAnalyser._start_job`, the unit of work executed inside a
worker process: create a fresh `AnalyserJob`, advance its status through
`training:started` and `prediction:started` to `completed`, accumulating
records; return the pair `(job._train_data, job._prediction_data)` (the
only data that crosses the process boundary).  The classifier construction
and the `analyser.job_list` registration (worker-local bookkeeping) carry no
record content.  Result: the finished worker-local job and the returned
pair. -/
def _start_job (jobId : String) (nn : NNInstance) (now : Int)
    (iters : List Dict) (tests : List (String × ScoreReport)) :
    AnalyserJob × (List Dict × List Dict) :=
  let job := mkJob jobId
  let job := { job with status := "training:started" }
  let job := trainPhase nn now iters job
  let job := { job with status := "prediction:started" }
  let job := predictPhase nn now tests job
  let job := { job with status := "completed" }
  (job, (job.train_data, job.prediction_data))

/-- Outcome of a completed future: `future.result()` either returns the
`(train_data, prediction_data)` pair produced by `_start_job`, or raises
the exception that escaped the unit of work (no data crosses back). -/
inductive JobOutcome where
  | ok : List Dict → List Dict → JobOutcome
  | failed : JobOutcome
deriving DecidableEq

/-- A future in `worker_list`.  Python compares futures by object identity
in `worker_list.remove(future)`; identity is modelled by `fid`. -/
structure Future where
  fid : Nat
  outcome : JobOutcome
deriving DecidableEq

/-- Does the future hold a successful result? -/
def Future.isOk (f : Future) : Bool :=
  match f.outcome with
  | .ok _ _ => true
  | .failed => false

/-- Coordinator state of `NeuralNetAnalyser`.  The aggregate pandas
DataFrames `train_log` / `prediction_log` are modelled as row lists (their
preset column headers are presentational); the executor is modelled by the
`max_workers` value it was constructed with; `log_dir`, the process-wide
`analyser_cache` registration and `job_completed` callback are I/O or
worker-side bookkeeping with no effect on the aggregate rows. -/
structure NeuralNetAnalyser where
  executor_max_workers : Option Nat
  worker_list : List Future
  train_log : List Dict
  prediction_log : List Dict
  train_options : Dict
deriving DecidableEq

/-- `NeuralNetAnalyser.__init__(log_dir='./', max_workers=None, ...)`: the
executor is created as `executor(max_workers=None)` — the literal `None`,
not the caller's `max_workers` argument; `worker_list` starts empty;
`_init_logs` installs empty logs; `train_options` defaults to
`{'foo': 12}`. -/
def mkAnalyser (max_workers : Option Nat) (train_options : Option Dict) :
    NeuralNetAnalyser :=
  { executor_max_workers := none,
    worker_list := [],
    train_log := [],
    prediction_log := [],
    train_options := train_options.getD [("foo", .vInt 12)] }

/-- `NeuralNetAnalyser.submit`: enqueue the unit of work and append its
future to `worker_list`. -/
def submit (a : NeuralNetAnalyser) (f : Future) : NeuralNetAnalyser :=
  { a with worker_list := a.worker_list ++ [f] }

/-- `NeuralNetAnalyser._append_job_data`: append each returned prediction
row, then each returned training row, to the respective aggregate log
(row-by-row `DataFrame.append`, i.e. one atomic batch per job). -/
def _append_job_data (a : NeuralNetAnalyser) (train_data prediction_data : List Dict) :
    NeuralNetAnalyser :=
  { a with prediction_log := a.prediction_log ++ prediction_data,
           train_log := a.train_log ++ train_data }

/-- `list.remove(x)` on `worker_list`: remove the first element with the
given identity (futures compare by identity). -/
def removeFirst : List Future → Nat → List Future
  | [], _ => []
  | f :: rest, i => if f.fid = i then rest else f :: removeFirst rest i

/-- One loop body of `NeuralNetAnalyser.start` for one completed future:
on an exception from `future.result()`, print the error and remove the
future from `worker_list`; on success, merge the job's batch via
`_append_job_data` (then invoke the optional `job_completed` callback and
re-write the log files — I/O with no effect on the aggregate rows). -/
def processFuture (a : NeuralNetAnalyser) (f : Future) : NeuralNetAnalyser :=
  match f.outcome with
  | .ok train_data prediction_data => _append_job_data a train_data prediction_data
  | .failed => { a with worker_list := removeFirst a.worker_list f.fid }

/-- `NeuralNetAnalyser.start`: drain `concurrent.futures.as_completed(self.worker_list)`.
`order` is the completion order the executor happens to produce — some
permutation of the `worker_list` snapshot taken by `as_completed` (a
re-drain yields already-done futures with their cached results). -/
def start (a : NeuralNetAnalyser) (order : List Future) : NeuralNetAnalyser :=
  order.foldl processFuture a

/-- The training-row batches of the successful futures, in the given
order. -/
def okTrainBatches (l : List Future) : List (List Dict) :=
  l.filterMap (fun f =>
    match f.outcome with
    | .ok train_data _ => some train_data
    | .failed => none)

/-- The prediction-row batches of the successful futures, in the given
order. -/
def okPredBatches (l : List Future) : List (List Dict) :=
  l.filterMap (fun f =>
    match f.outcome with
    | .ok _ prediction_data => some prediction_data
    | .failed => none)

/-- The identities of the failed futures, in the given order. -/
def failedFids (l : List Future) : List Nat :=
  l.filterMap (fun f =>
    match f.outcome with
    | .ok _ _ => none
    | .failed => some f.fid)

/-- The keys of the totals record that carry score-report data; the
statements about their values assume the opaque hyperparameter /
extra-data dicts do not rebind them (they would win the merge if they
did, see the merge precedence). -/
def predScoreKeys : List String :=
  ["label", "precision", "recall", "f1", "support", "accuracy"]

/-- A dict binds none of the given keys. -/
def noOverride (d : Dict) (keys : List String) : Bool :=
  keys.all (fun k => (dget d k).isNone)

/-- A sample classifier instance used to instantiate theorems on concrete
inputs. -/
def nnW : NNInstance :=
  { className := "NeuralNet",
    instance_id := "clf-1",
    hyper := [("learning_rate", .vInt 5), ("iteration_count", .vInt 3)] }

/-- A sample score report with two labels. -/
def scoreW : ScoreReport :=
  { labels := ["a", "b"],
    precision := [1, 2],
    «recall» := [3, 4],
    f1 := [5, 6],
    support := [7, 8],
    totals := (9, 10, 11, 12),
    accuracy := 13 }

/-- A sample aggregate-log training row. -/
def rowA : Dict := [("cost", .vInt 3)]

/-- A sample aggregate-log prediction row. -/
def rowP : Dict := [("label", .vStr "__totals__")]

/-- A sample successfully completed future carrying one training row and
one prediction row. -/
def fOk1 : Future := ⟨1, .ok [rowA] [rowP]⟩

/-- A sample failed future (its unit of work raised). -/
def fBad2 : Future := ⟨2, .failed⟩

/-- A sample coordinator with one successful and one failed job
submitted. -/
def aSub : NeuralNetAnalyser :=
  submit (submit (mkAnalyser (some 4) none) fOk1) fBad2

/-!
Interleaved semantics of the lock-guarded append.  Each of several threads
inside one job executes the body of `add_to_train_log` /
`add_to_prediction_log` around the shared sequence:

    with self._trainlock:
        self._train_data.append(data)

To make the lock load-bearing, `list.append` is split into its read of the
current sequence and its write of the extended sequence, so that without
mutual exclusion two threads could both read the same snapshot and one
append would be lost.  Thread `t < n` appends the already-built record
`v t`; a thread's program is acquire → read → write → release, and
`acquire` can fire only while no thread holds the lock.
-/

/-- Program counter of one appending thread. -/
inductive PC where
  | idle : PC
  | acquired : PC
  | readS : List Dict → PC
  | written : PC
  | finished : PC
deriving DecidableEq

/-- Shared state: the lock (holder's thread id, if held), every thread's
program counter, and the guarded sequence. -/
structure LockState where
  lock : Option Nat
  pc : Nat → PC
  data : List Dict

/-- Initial state: lock free, all threads idle, sequence as given. -/
def initState (init : List Dict) : LockState :=
  { lock := none, pc := fun _ => .idle, data := init }

/-- One interleaving step of the `n` appending threads. -/
inductive LStep (n : Nat) (v : Nat → Dict) : LockState → LockState → Prop where
  | acquire (t : Nat) (s : LockState) :
      t < n → s.lock = none → s.pc t = .idle →
      LStep n v s ⟨some t, Function.update s.pc t .acquired, s.data⟩
  | readStep (t : Nat) (s : LockState) :
      t < n → s.pc t = .acquired →
      LStep n v s ⟨s.lock, Function.update s.pc t (.readS s.data), s.data⟩
  | writeStep (t : Nat) (l : List Dict) (s : LockState) :
      t < n → s.pc t = .readS l →
      LStep n v s ⟨s.lock, Function.update s.pc t .written, l ++ [v t]⟩
  | release (t : Nat) (s : LockState) :
      t < n → s.pc t = .written →
      LStep n v s ⟨none, Function.update s.pc t .finished, s.data⟩

/-- A thread is inside the critical section. -/
def critical (p : PC) : Prop :=
  p = .acquired ∨ (∃ l, p = PC.readS l) ∨ p = .written

/-- The thread's append has taken effect. -/
def donePC : PC → Bool
  | .written => true
  | .finished => true
  | _ => false

/-- Inductive invariant of the locked-append system: the sequence holds the
initial rows plus exactly the records of the threads whose append took
effect; only the lock holder is in the critical section; a read snapshot is
current. -/
structure LInv (n : Nat) (v : Nat → Dict) (init : List Dict) (s : LockState) : Prop where
  perm : s.data.Perm (init ++ ((List.range n).filter (fun t => donePC (s.pc t))).map v)
  excl : ∀ t, critical (s.pc t) → s.lock = some t
  snap : ∀ t l, s.pc t = PC.readS l → l = s.data

theorem dget_append (a b : Dict) (k : String) :
    dget (a ++ b) k = por (dget a k) (dget b k) := by
  induction a with
  | nil => rfl
  | cons p rest ih =>
    obtain ⟨pk, pv⟩ := p
    show dget ((pk, pv) :: (rest ++ b)) k = _
    by_cases h : pk = k
    · simp [dget, h, por]
    · simp [dget, h, ih]

theorem dget_dmerge (a b : Dict) (k : String) :
    dget (dmerge a b) k = por (dget b k) (dget a k) := by
  unfold dmerge
  exact dget_append b a k

theorem dget_dmerge_isSome (a b : Dict) (k : String) :
    (dget (dmerge a b) k).isSome = ((dget b k).isSome || (dget a k).isSome) := by
  rw [dget_dmerge]
  cases dget b k <;> cases dget a k <;> rfl

theorem trainPhase_train_data (nn : NNInstance) (now : Int) (iters : List Dict)
    (job : AnalyserJob) :
    (trainPhase nn now iters job).train_data
      = job.train_data ++ iters.map (fun it => trainRecord nn now it []) := by
  induction iters generalizing job with
  | nil => simp [trainPhase]
  | cons it rest ih =>
    simp only [trainPhase, List.foldl_cons, List.map_cons] at *
    rw [ih]
    simp [add_to_train_log]

theorem trainPhase_prediction_data (nn : NNInstance) (now : Int)
    (iters : List Dict) (job : AnalyserJob) :
    (trainPhase nn now iters job).prediction_data = job.prediction_data := by
  induction iters generalizing job with
  | nil => rfl
  | cons it rest ih =>
    simp only [trainPhase, List.foldl_cons] at *
    rw [ih]
    rfl

theorem trainPhase_status (nn : NNInstance) (now : Int)
    (iters : List Dict) (job : AnalyserJob) :
    (trainPhase nn now iters job).status = job.status := by
  induction iters generalizing job with
  | nil => rfl
  | cons it rest ih =>
    simp only [trainPhase, List.foldl_cons] at *
    rw [ih]
    rfl

theorem predictPhase_prediction_data (nn : NNInstance) (now : Int)
    (tests : List (String × ScoreReport)) (job : AnalyserJob) :
    (predictPhase nn now tests job).prediction_data
      = job.prediction_data
        ++ tests.map (fun p => predTotalsRecord nn now p.1 p.2 []) := by
  induction tests generalizing job with
  | nil => simp [predictPhase]
  | cons p rest ih =>
    simp only [predictPhase, List.foldl_cons, List.map_cons] at *
    rw [ih]
    simp [add_to_prediction_log]

theorem predictPhase_train_data (nn : NNInstance) (now : Int)
    (tests : List (String × ScoreReport)) (job : AnalyserJob) :
    (predictPhase nn now tests job).train_data = job.train_data := by
  induction tests generalizing job with
  | nil => rfl
  | cons p rest ih =>
    simp only [predictPhase, List.foldl_cons] at *
    rw [ih]
    rfl

theorem start_train_log (a : NeuralNetAnalyser) (order : List Future) :
    (start a order).train_log = a.train_log ++ (okTrainBatches order).flatten := by
  induction order generalizing a with
  | nil => simp [start, okTrainBatches]
  | cons f rest ih =>
    simp only [start, List.foldl_cons] at *
    rw [ih]
    cases h : f.outcome with
    | ok td pd =>
      simp [processFuture, h, _append_job_data, okTrainBatches, List.filterMap_cons]
    | failed =>
      simp [processFuture, h, okTrainBatches, List.filterMap_cons]

theorem start_prediction_log (a : NeuralNetAnalyser) (order : List Future) :
    (start a order).prediction_log
      = a.prediction_log ++ (okPredBatches order).flatten := by
  induction order generalizing a with
  | nil => simp [start, okPredBatches]
  | cons f rest ih =>
    simp only [start, List.foldl_cons] at *
    rw [ih]
    cases h : f.outcome with
    | ok td pd =>
      simp [processFuture, h, _append_job_data, okPredBatches, List.filterMap_cons]
    | failed =>
      simp [processFuture, h, okPredBatches, List.filterMap_cons]

theorem start_worker_list (a : NeuralNetAnalyser) (order : List Future) :
    (start a order).worker_list
      = (failedFids order).foldl removeFirst a.worker_list := by
  induction order generalizing a with
  | nil => rfl
  | cons f rest ih =>
    simp only [start, List.foldl_cons] at *
    rw [ih]
    cases h : f.outcome with
    | ok td pd =>
      simp [processFuture, h, _append_job_data, failedFids, List.filterMap_cons]
    | failed =>
      simp [processFuture, h, failedFids, List.filterMap_cons]

/-- C9: for every value of the `max_workers` constructor argument, the
worker pool is created with `max_workers=None` — the caller-supplied bound
is accepted but ignored, so the pool size is the platform default
regardless of the requested count. -/
theorem C9_max_workers_ignored (mw mw2 : Option Nat) (topt : Option Dict) :
    (mkAnalyser mw topt).executor_max_workers = none
    ∧ mkAnalyser mw topt = mkAnalyser mw2 topt :=
  ⟨rfl, rfl⟩

/-- C5 counterexample: the claim says iteration data wins a key collision
against the hyperparameters; in the source the merge is
`{**base_cols, **train_data, **hyper_parameters, **extra_data}`, so the
hyperparameter value wins.  With iteration data `{'alpha': 1}` and
hyperparameters `{'alpha': 2}` the stored record carries `alpha = 2`, not
the `alpha = 1` the claim requires. -/
theorem C5_counterexample :
    dget (add_to_train_log (mkJob "job-0")
        ⟨"NeuralNet", "clf-0", [("alpha", Value.vInt 2)]⟩ 0
        [("alpha", Value.vInt 1)] none).2 "alpha" = some (Value.vInt 2)
    ∧ some (Value.vInt 2) ≠ some (Value.vInt 1) := by
  decide

/-- C5 (amended): the appended and returned training record is the merge of
the base identity columns, the raw iteration data, the classifier's
hyperparameters, and the optional extra mapping, where on any key collision
the later-listed source wins: extra over hyperparameters, hyperparameters
over iteration data, iteration data over base columns. -/
theorem C5_train_record_merge (job : AnalyserJob) (nn : NNInstance) (now : Int)
    (train_data : Dict) (extra_data : Option Dict) (k : String) :
    (add_to_train_log job nn now train_data extra_data).1.train_data
      = job.train_data ++ [(add_to_train_log job nn now train_data extra_data).2]
    ∧ dget (add_to_train_log job nn now train_data extra_data).2 k
      = por (dget (extra_data.getD []) k)
          (por (dget nn.hyper k)
            (por (dget train_data k) (dget (trainBaseCols nn now) k))) := by
  constructor
  · rfl
  · show dget (trainRecord nn now train_data (extra_data.getD [])) k = _
    unfold trainRecord
    rw [dget_dmerge, dget_dmerge, dget_dmerge]

/-- C4: one call to `add_to_prediction_log` appends exactly one record to
the job's prediction sequence — the synthetic totals row, with label
`"__totals__"` and the aggregate precision, recall, f1, support and scalar
accuracy (assuming the opaque hyperparameter and extra dicts do not rebind
those score keys, which would win the merge) — leaves the training sequence
untouched, and returns that totals record; the per-label rows are computed
but not persisted. -/
theorem C4_prediction_appends_totals_only (job : AnalyserJob) (nn : NNInstance)
    (now : Int) (tsid : String) (score : ScoreReport) (extra_data : Option Dict)
    (hh : noOverride nn.hyper predScoreKeys = true)
    (he : noOverride (extra_data.getD []) predScoreKeys = true) :
    (add_to_prediction_log job nn now tsid score extra_data).1.prediction_data
      = job.prediction_data
        ++ [(add_to_prediction_log job nn now tsid score extra_data).2]
    ∧ (add_to_prediction_log job nn now tsid score extra_data).1.train_data
      = job.train_data
    ∧ (add_to_prediction_log job nn now tsid score extra_data).2
      = predTotalsRecord nn now tsid score (extra_data.getD [])
    ∧ dget (add_to_prediction_log job nn now tsid score extra_data).2 "label"
      = some (.vStr "__totals__")
    ∧ dget (add_to_prediction_log job nn now tsid score extra_data).2 "precision"
      = some (.vRat score.totals.1)
    ∧ dget (add_to_prediction_log job nn now tsid score extra_data).2 "recall"
      = some (.vRat score.totals.2.1)
    ∧ dget (add_to_prediction_log job nn now tsid score extra_data).2 "f1"
      = some (.vRat score.totals.2.2.1)
    ∧ dget (add_to_prediction_log job nn now tsid score extra_data).2 "support"
      = some (.vRat score.totals.2.2.2)
    ∧ dget (add_to_prediction_log job nn now tsid score extra_data).2 "accuracy"
      = some (.vRat score.accuracy) := by
  simp only [noOverride, predScoreKeys, List.all_cons, List.all_nil,
    Bool.and_eq_true, Option.isNone_iff_eq_none, Bool.and_true] at hh he
  obtain ⟨hh1, hh2, hh3, hh4, hh5, hh6⟩ := hh
  obtain ⟨he1, he2, he3, he4, he5, he6⟩ := he
  refine ⟨rfl, rfl, rfl, ?_, ?_, ?_, ?_, ?_, ?_⟩ <;>
    · show dget (predTotalsRecord nn now tsid score (extra_data.getD [])) _ = _
      unfold predTotalsRecord
      rw [dget_dmerge, dget_dmerge]
      simp [hh1, hh2, hh3, hh4, hh5, hh6, he1, he2, he3, he4, he5, he6, por, dget]

/-- C4 witness: the theorem applied to a concrete job, score report and
hyperparameter dict. -/
theorem C4_witness :
    (add_to_prediction_log (mkJob "j0") nnW 5 "t1" scoreW none).1.prediction_data
      = (mkJob "j0").prediction_data
        ++ [(add_to_prediction_log (mkJob "j0") nnW 5 "t1" scoreW none).2]
    ∧ (add_to_prediction_log (mkJob "j0") nnW 5 "t1" scoreW none).1.train_data
      = (mkJob "j0").train_data
    ∧ (add_to_prediction_log (mkJob "j0") nnW 5 "t1" scoreW none).2
      = predTotalsRecord nnW 5 "t1" scoreW ((none : Option Dict).getD [])
    ∧ dget (add_to_prediction_log (mkJob "j0") nnW 5 "t1" scoreW none).2 "label"
      = some (.vStr "__totals__")
    ∧ dget (add_to_prediction_log (mkJob "j0") nnW 5 "t1" scoreW none).2 "precision"
      = some (.vRat scoreW.totals.1)
    ∧ dget (add_to_prediction_log (mkJob "j0") nnW 5 "t1" scoreW none).2 "recall"
      = some (.vRat scoreW.totals.2.1)
    ∧ dget (add_to_prediction_log (mkJob "j0") nnW 5 "t1" scoreW none).2 "f1"
      = some (.vRat scoreW.totals.2.2.1)
    ∧ dget (add_to_prediction_log (mkJob "j0") nnW 5 "t1" scoreW none).2 "support"
      = some (.vRat scoreW.totals.2.2.2)
    ∧ dget (add_to_prediction_log (mkJob "j0") nnW 5 "t1" scoreW none).2 "accuracy"
      = some (.vRat scoreW.accuracy) :=
  C4_prediction_appends_totals_only (mkJob "j0") nnW 5 "t1" scoreW none
    (by decide) (by decide)

/-- C10: the `job_id` field of the record appended to a job's prediction
sequence is the constant `1` (assuming the opaque hyperparameter and extra
dicts do not rebind `job_id`), and the integer `1` never equals any
generated string id (the uuid4 ids are strings), so prediction rows from
different jobs are indistinguishable by their `job_id` value. -/
theorem C10_job_id_constant_one (job : AnalyserJob) (nn : NNInstance) (now : Int)
    (tsid : String) (score : ScoreReport) (extra_data : Option Dict)
    (hh : (dget nn.hyper "job_id").isNone = true)
    (he : (dget (extra_data.getD []) "job_id").isNone = true) :
    dget (add_to_prediction_log job nn now tsid score extra_data).2 "job_id"
      = some (.vInt 1)
    ∧ ∀ s : String, Value.vInt 1 ≠ Value.vStr s := by
  rw [Option.isNone_iff_eq_none] at hh he
  constructor
  · show dget (predTotalsRecord nn now tsid score (extra_data.getD [])) _ = _
    unfold predTotalsRecord
    rw [dget_dmerge, dget_dmerge]
    simp [hh, he, por, dget]
  · intro s h
    exact Value.noConfusion h

/-- C10 witness: the theorem applied to a concrete job and score report. -/
theorem C10_witness :
    dget (add_to_prediction_log (mkJob "j0") nnW 5 "t1" scoreW none).2 "job_id"
      = some (.vInt 1)
    ∧ ∀ s : String, Value.vInt 1 ≠ Value.vStr s :=
  C10_job_id_constant_one (mkJob "j0") nnW 5 "t1" scoreW none (by decide) (by decide)

/-- C6: a job that runs to completion with the given iteration data and
named test sets has exactly one prediction record per test set — each the
totals row with label `"__totals__"` (assuming the opaque hyperparameters do
not rebind `label`) and a `job_id` key present — exactly (hence at least)
one training record per training iteration performed, status `completed`,
and returns exactly its two record sequences. -/
theorem C6_successful_job_shape (jobId : String) (nn : NNInstance) (now : Int)
    (iters : List Dict) (tests : List (String × ScoreReport))
    (hl : (dget nn.hyper "label").isNone = true) :
    (_start_job jobId nn now iters tests).1.status = "completed"
    ∧ (_start_job jobId nn now iters tests).1.prediction_data.length = tests.length
    ∧ (_start_job jobId nn now iters tests).1.train_data.length = iters.length
    ∧ iters.length ≤ (_start_job jobId nn now iters tests).1.train_data.length
    ∧ (∀ r ∈ (_start_job jobId nn now iters tests).1.prediction_data,
        dget r "label" = some (.vStr "__totals__")
        ∧ (dget r "job_id").isSome = true)
    ∧ (_start_job jobId nn now iters tests).2
      = ((_start_job jobId nn now iters tests).1.train_data,
         (_start_job jobId nn now iters tests).1.prediction_data) := by
  rw [Option.isNone_iff_eq_none] at hl
  have hpred : (_start_job jobId nn now iters tests).1.prediction_data
      = tests.map (fun p => predTotalsRecord nn now p.1 p.2 []) := by
    simp only [_start_job]
    rw [predictPhase_prediction_data, trainPhase_prediction_data]
    simp [mkJob]
  have htrain : (_start_job jobId nn now iters tests).1.train_data
      = iters.map (fun it => trainRecord nn now it []) := by
    simp only [_start_job]
    rw [predictPhase_train_data, trainPhase_train_data]
    simp [mkJob]
  refine ⟨?_, ?_, ?_, ?_, ?_, rfl⟩
  · simp only [_start_job]
  · rw [hpred, List.length_map]
  · rw [htrain, List.length_map]
  · rw [htrain, List.length_map]
  · intro r hr
    rw [hpred] at hr
    obtain ⟨p, _, rfl⟩ := List.mem_map.mp hr
    constructor
    · unfold predTotalsRecord
      rw [dget_dmerge, dget_dmerge]
      simp [hl, por, dget]
    · unfold predTotalsRecord
      rw [dget_dmerge, dget_dmerge]
      cases dget nn.hyper "job_id" <;> simp [por, dget]

/-- C6 witness: the theorem applied to a concrete job with three training
iterations and two named test sets. -/
theorem C6_witness :
    (_start_job "j1" nnW 7
        [[("cost", .vInt 9), ("epoch", .vInt 0)],
         [("cost", .vInt 8), ("epoch", .vInt 1)],
         [("cost", .vInt 7), ("epoch", .vInt 2)]]
        [("t1", scoreW), ("t2", scoreW)]).1.status = "completed"
    ∧ (_start_job "j1" nnW 7
        [[("cost", .vInt 9), ("epoch", .vInt 0)],
         [("cost", .vInt 8), ("epoch", .vInt 1)],
         [("cost", .vInt 7), ("epoch", .vInt 2)]]
        [("t1", scoreW), ("t2", scoreW)]).1.prediction_data.length
      = [("t1", scoreW), ("t2", scoreW)].length
    ∧ (_start_job "j1" nnW 7
        [[("cost", .vInt 9), ("epoch", .vInt 0)],
         [("cost", .vInt 8), ("epoch", .vInt 1)],
         [("cost", .vInt 7), ("epoch", .vInt 2)]]
        [("t1", scoreW), ("t2", scoreW)]).1.train_data.length
      = [[("cost", Value.vInt 9), ("epoch", Value.vInt 0)],
         [("cost", Value.vInt 8), ("epoch", Value.vInt 1)],
         [("cost", Value.vInt 7), ("epoch", Value.vInt 2)]].length
    ∧ [[("cost", Value.vInt 9), ("epoch", Value.vInt 0)],
         [("cost", Value.vInt 8), ("epoch", Value.vInt 1)],
         [("cost", Value.vInt 7), ("epoch", Value.vInt 2)]].length
      ≤ (_start_job "j1" nnW 7
        [[("cost", .vInt 9), ("epoch", .vInt 0)],
         [("cost", .vInt 8), ("epoch", .vInt 1)],
         [("cost", .vInt 7), ("epoch", .vInt 2)]]
        [("t1", scoreW), ("t2", scoreW)]).1.train_data.length
    ∧ (∀ r ∈ (_start_job "j1" nnW 7
        [[("cost", .vInt 9), ("epoch", .vInt 0)],
         [("cost", .vInt 8), ("epoch", .vInt 1)],
         [("cost", .vInt 7), ("epoch", .vInt 2)]]
        [("t1", scoreW), ("t2", scoreW)]).1.prediction_data,
        dget r "label" = some (.vStr "__totals__")
        ∧ (dget r "job_id").isSome = true)
    ∧ (_start_job "j1" nnW 7
        [[("cost", .vInt 9), ("epoch", .vInt 0)],
         [("cost", .vInt 8), ("epoch", .vInt 1)],
         [("cost", .vInt 7), ("epoch", .vInt 2)]]
        [("t1", scoreW), ("t2", scoreW)]).2
      = ((_start_job "j1" nnW 7
        [[("cost", .vInt 9), ("epoch", .vInt 0)],
         [("cost", .vInt 8), ("epoch", .vInt 1)],
         [("cost", .vInt 7), ("epoch", .vInt 2)]]
        [("t1", scoreW), ("t2", scoreW)]).1.train_data,
         (_start_job "j1" nnW 7
        [[("cost", .vInt 9), ("epoch", .vInt 0)],
         [("cost", .vInt 8), ("epoch", .vInt 1)],
         [("cost", .vInt 7), ("epoch", .vInt 2)]]
        [("t1", scoreW), ("t2", scoreW)]).1.prediction_data) :=
  C6_successful_job_shape "j1" nnW 7
    [[("cost", .vInt 9), ("epoch", .vInt 0)],
     [("cost", .vInt 8), ("epoch", .vInt 1)],
     [("cost", .vInt 7), ("epoch", .vInt 2)]]
    [("t1", scoreW), ("t2", scoreW)] (by decide)

/-- C2: a failed completion leaves both aggregate logs exactly as they
would have been without that future in the drain — zero rows from a failed
job are ever appended (a failed `future.result()` surfaces only the raised
exception; no record crosses the process boundary). -/
theorem C2_failed_job_adds_no_rows (a : NeuralNetAnalyser)
    (pre post : List Future) (f : Future) (hf : f.outcome = .failed) :
    (start a (pre ++ f :: post)).train_log = (start a (pre ++ post)).train_log
    ∧ (start a (pre ++ f :: post)).prediction_log
      = (start a (pre ++ post)).prediction_log := by
  constructor
  · rw [start_train_log, start_train_log]
    simp [okTrainBatches, List.filterMap_append, List.filterMap_cons, hf]
  · rw [start_prediction_log, start_prediction_log]
    simp [okPredBatches, List.filterMap_append, List.filterMap_cons, hf]

/-- C2 witness: the theorem applied to a drain holding one failed and one
successful future. -/
theorem C2_witness :
    (start aSub ([] ++ fBad2 :: [fOk1])).train_log
      = (start aSub ([] ++ [fOk1])).train_log
    ∧ (start aSub ([] ++ fBad2 :: [fOk1])).prediction_log
      = (start aSub ([] ++ [fOk1])).prediction_log :=
  C2_failed_job_adds_no_rows aSub [] [fOk1] fBad2 rfl

/-- C7: after a single drain, each aggregate log grew by exactly the sum of
the corresponding record counts of the successful jobs, and two drains of
the same batch in different completion orders produce the same final
counts. -/
theorem C7_drain_counts_order_independent (a : NeuralNetAnalyser)
    (o1 o2 : List Future) (h : o1.Perm o2) :
    (start a o1).train_log.length
      = a.train_log.length + ((okTrainBatches o1).map List.length).sum
    ∧ (start a o1).prediction_log.length
      = a.prediction_log.length + ((okPredBatches o1).map List.length).sum
    ∧ (start a o2).train_log.length = (start a o1).train_log.length
    ∧ (start a o2).prediction_log.length = (start a o1).prediction_log.length := by
  have t : ∀ o : List Future, (start a o).train_log.length
      = a.train_log.length + ((okTrainBatches o).map List.length).sum := by
    intro o
    rw [start_train_log, List.length_append, List.length_flatten]
  have p : ∀ o : List Future, (start a o).prediction_log.length
      = a.prediction_log.length + ((okPredBatches o).map List.length).sum := by
    intro o
    rw [start_prediction_log, List.length_append, List.length_flatten]
  have ht : ((okTrainBatches o2).map List.length).sum
      = ((okTrainBatches o1).map List.length).sum :=
    ((h.symm.filterMap _).map List.length).sum_eq
  have hp : ((okPredBatches o2).map List.length).sum
      = ((okPredBatches o1).map List.length).sum :=
    ((h.symm.filterMap _).map List.length).sum_eq
  exact ⟨t o1, p o1, by rw [t o1, t o2, ht], by rw [p o1, p o2, hp]⟩

/-- C7 witness: the theorem applied to a two-future batch (one success, one
failure) drained in its two possible completion orders. -/
theorem C7_witness :
    (start aSub [fOk1, fBad2]).train_log.length
      = aSub.train_log.length + ((okTrainBatches [fOk1, fBad2]).map List.length).sum
    ∧ (start aSub [fOk1, fBad2]).prediction_log.length
      = aSub.prediction_log.length
        + ((okPredBatches [fOk1, fBad2]).map List.length).sum
    ∧ (start aSub [fBad2, fOk1]).train_log.length
      = (start aSub [fOk1, fBad2]).train_log.length
    ∧ (start aSub [fBad2, fOk1]).prediction_log.length
      = (start aSub [fOk1, fBad2]).prediction_log.length :=
  C7_drain_counts_order_independent aSub [fOk1, fBad2] [fBad2, fOk1] (by decide)

theorem removeFirst_subset (wl : List Future) (i : Nat) :
    ∀ g ∈ removeFirst wl i, g ∈ wl := by
  induction wl with
  | nil => intro g hg; cases hg
  | cons f rest ih =>
    intro g hg
    by_cases h : f.fid = i
    · simp only [removeFirst, if_pos h] at hg
      exact List.mem_cons_of_mem f hg
    · simp only [removeFirst, if_neg h] at hg
      rw [List.mem_cons] at hg
      rcases hg with hg | hg
      · exact hg ▸ List.mem_cons_self f rest
      · exact List.mem_cons_of_mem f (ih g hg)

theorem removeFirst_sublist (wl : List Future) (i : Nat) :
    (removeFirst wl i).Sublist wl := by
  induction wl with
  | nil => exact List.Sublist.refl []
  | cons f rest ih =>
    by_cases h : f.fid = i
    · simp only [removeFirst, if_pos h]
      exact List.sublist_cons_self f rest
    · simp only [removeFirst, if_neg h]
      exact ih.cons₂ f

theorem fid_ne_of_mem_removeFirst (wl : List Future) (i : Nat)
    (hnd : (wl.map Future.fid).Nodup) (g : Future)
    (hg : g ∈ removeFirst wl i) : g.fid ≠ i := by
  induction wl with
  | nil => cases hg
  | cons f rest ih =>
    rw [List.map_cons, List.nodup_cons] at hnd
    by_cases h : f.fid = i
    · simp only [removeFirst, if_pos h] at hg
      intro hgi
      exact hnd.1 (h ▸ hgi ▸ List.mem_map_of_mem Future.fid hg)
    · simp only [removeFirst, if_neg h] at hg
      rw [List.mem_cons] at hg
      rcases hg with hg | hg
      · exact hg ▸ h
      · exact ih hnd.2 hg

theorem mem_foldl_removeFirst (fids : List Nat) (wl : List Future)
    (hnd : (wl.map Future.fid).Nodup) (g : Future)
    (hg : g ∈ fids.foldl removeFirst wl) : g ∈ wl ∧ g.fid ∉ fids := by
  induction fids generalizing wl with
  | nil => exact ⟨hg, by simp⟩
  | cons i is ih =>
    rw [List.foldl_cons] at hg
    have hnd2 : ((removeFirst wl i).map Future.fid).Nodup :=
      hnd.sublist ((removeFirst_sublist wl i).map Future.fid)
    obtain ⟨h1, h2⟩ := ih (removeFirst wl i) hnd2 hg
    refine ⟨removeFirst_subset wl i g h1, ?_⟩
    rw [List.mem_cons, not_or]
    exact ⟨fid_ne_of_mem_removeFirst wl i hnd g h1, h2⟩

theorem fid_mem_failedFids (order : List Future) (f : Future)
    (hf : f ∈ order) (ho : f.outcome = .failed) : f.fid ∈ failedFids order := by
  unfold failedFids
  rw [List.mem_filterMap]
  exact ⟨f, hf, by rw [ho]⟩

theorem flatten_split {α : Type} (L : List (List α)) (b : List α) (hb : b ∈ L) :
    ∃ p q, L.flatten = p ++ b ++ q := by
  induction L with
  | nil => cases hb
  | cons B L2 ih =>
    rw [List.mem_cons] at hb
    rcases hb with hb | hb
    · exact ⟨[], L2.flatten, by simp [hb]⟩
    · obtain ⟨p, q, hpq⟩ := ih hb
      exact ⟨B ++ p, q, by simp [hpq]⟩

theorem trainBatch_mem (order : List Future) (f : Future) (td pd : List Dict)
    (hf : f ∈ order) (ho : f.outcome = .ok td pd) : td ∈ okTrainBatches order := by
  unfold okTrainBatches
  rw [List.mem_filterMap]
  exact ⟨f, hf, by rw [ho]⟩

theorem predBatch_mem (order : List Future) (f : Future) (td pd : List Dict)
    (hf : f ∈ order) (ho : f.outcome = .ok td pd) : pd ∈ okPredBatches order := by
  unfold okPredBatches
  rw [List.mem_filterMap]
  exact ⟨f, hf, by rw [ho]⟩

/-- C3: `start` is a total drain (the model of its per-future try/except is
a total function, so one job's exception cannot abort it): every failed
future is removed from the active `worker_list`, and every successful
sibling's training and prediction batches still appear in the aggregate
logs.  The futures in `worker_list` are distinct objects, so their
identities are assumed distinct. -/
theorem C3_failure_does_not_abort_drain (a : NeuralNetAnalyser)
    (order : List Future) (hnd : (a.worker_list.map Future.fid).Nodup) :
    (∀ f ∈ order, f.outcome = .failed → f ∉ (start a order).worker_list)
    ∧ (∀ f td pd, f ∈ order → f.outcome = .ok td pd →
        (∃ p q, (start a order).train_log = p ++ td ++ q)
        ∧ ∃ p q, (start a order).prediction_log = p ++ pd ++ q) := by
  constructor
  · intro f hf hfail hmem
    rw [start_worker_list] at hmem
    obtain ⟨_, h2⟩ := mem_foldl_removeFirst (failedFids order) a.worker_list hnd f hmem
    exact h2 (fid_mem_failedFids order f hf hfail)
  · intro f td pd hf ho
    constructor
    · rw [start_train_log]
      obtain ⟨p, q, hpq⟩ := flatten_split _ td (trainBatch_mem order f td pd hf ho)
      exact ⟨a.train_log ++ p, q, by rw [hpq]; simp⟩
    · rw [start_prediction_log]
      obtain ⟨p, q, hpq⟩ := flatten_split _ pd (predBatch_mem order f td pd hf ho)
      exact ⟨a.prediction_log ++ p, q, by rw [hpq]; simp⟩

/-- C3 witness: the theorem applied to a drain of one successful and one
failed job: the failed future leaves the active set and the sibling's rows
are merged. -/
theorem C3_witness :
    (fBad2 ∉ (start aSub [fOk1, fBad2]).worker_list)
    ∧ (∃ p q, (start aSub [fOk1, fBad2]).train_log = p ++ [rowA] ++ q)
    ∧ (∃ p q, (start aSub [fOk1, fBad2]).prediction_log = p ++ [rowP] ++ q) :=
  ⟨(C3_failure_does_not_abort_drain aSub [fOk1, fBad2] (by decide)).1
      fBad2 (by decide) rfl,
   ((C3_failure_does_not_abort_drain aSub [fOk1, fBad2] (by decide)).2
      fOk1 [rowA] [rowP] (by decide) rfl).1,
   ((C3_failure_does_not_abort_drain aSub [fOk1, fBad2] (by decide)).2
      fOk1 [rowA] [rowP] (by decide) rfl).2⟩

/-- C1 (code behaviour at the failing input): after draining one successful
and one failed submission, the successful future is still in `worker_list`
(only failed futures are removed), so a second `start()` with no new
submissions re-drains it — `as_completed` yields the already-done future,
`future.result()` returns its cached batch, and the job's rows are appended
to both aggregate logs a second time, where the claim requires the second
drain to append none of them. -/
theorem C1_second_drain_duplicates_rows :
    (start aSub [fOk1, fBad2]).worker_list = [fOk1]
    ∧ (start aSub [fOk1, fBad2]).train_log = [rowA]
    ∧ (start aSub [fOk1, fBad2]).prediction_log = [rowP]
    ∧ (start (start aSub [fOk1, fBad2]) [fOk1]).train_log = [rowA, rowA]
    ∧ (start (start aSub [fOk1, fBad2]) [fOk1]).prediction_log = [rowP, rowP] := by
  decide


theorem filter_flip {α : Type} (l : List α) (t : α) (p q : α → Bool)
    (hnd : l.Nodup) (ht : t ∈ l) (hp : p t = false) (hq : q t = true)
    (hother : ∀ x ∈ l, x ≠ t → q x = p x) :
    (l.filter q).Perm (t :: l.filter p) := by
  induction l with
  | nil => cases ht
  | cons a l2 ih =>
    rw [List.nodup_cons] at hnd
    rw [List.mem_cons] at ht
    by_cases hat : a = t
    · subst hat
      have hsame : l2.filter q = l2.filter p := by
        apply List.filter_congr
        intro x hx
        exact hother x (List.mem_cons_of_mem a hx) (fun hxt => hnd.1 (hxt ▸ hx))
      rw [List.filter_cons, List.filter_cons, hp, hq, if_pos rfl, hsame]
      have : ¬(false = true) := by decide
      rw [if_neg this]
    · have ht2 : t ∈ l2 := ht.resolve_left (fun h => hat h.symm)
      have hqa : q a = p a := hother a (List.mem_cons_self a l2) hat
      have ih2 : (l2.filter q).Perm (t :: l2.filter p) :=
        ih hnd.2 ht2 (fun x hx hxt => hother x (List.mem_cons_of_mem a hx) hxt)
      rw [List.filter_cons, List.filter_cons, hqa]
      cases hpa : p a with
      | true =>
        rw [if_pos rfl, if_pos rfl]
        exact (ih2.cons a).trans (List.Perm.swap t a (l2.filter p))
      | false =>
        have : ¬(false = true) := by decide
        rw [if_neg this, if_neg this]
        exact ih2

theorem LInv_init (n : Nat) (v : Nat → Dict) (init : List Dict) :
    LInv n v init (initState init) := by
  refine ⟨?_, ?_, ?_⟩
  · show init.Perm (init ++ ((List.range n).filter (fun _ => donePC PC.idle)).map v)
    simp [donePC]
  · intro t hc
    replace hc : critical PC.idle := hc
    rcases hc with hc | ⟨l, hc⟩ | hc <;> cases hc
  · intro t l hc
    replace hc : PC.idle = PC.readS l := hc
    cases hc

theorem LInv_step (n : Nat) (v : Nat → Dict) (init : List Dict)
    (s s2 : LockState) (hs : LInv n v init s) (hstep : LStep n v s s2) :
    LInv n v init s2 := by
  cases hstep with
  | acquire t sc htn hlock hpc =>
    refine ⟨?_, ?_, ?_⟩
    · show s.data.Perm (init ++ ((List.range n).filter
          (fun x => donePC (Function.update s.pc t PC.acquired x))).map v)
      have hfc : (List.range n).filter
            (fun x => donePC (Function.update s.pc t PC.acquired x))
          = (List.range n).filter (fun x => donePC (s.pc x)) := by
        apply List.filter_congr
        intro x _
        by_cases hxt : x = t
        · subst hxt
          rw [Function.update_same, hpc]
          rfl
        · rw [Function.update_noteq hxt]
      rw [hfc]
      exact hs.perm
    · intro x hc
      replace hc : critical (Function.update s.pc t PC.acquired x) := hc
      show some t = some x
      by_cases hxt : x = t
      · rw [hxt]
      · rw [Function.update_noteq hxt] at hc
        have hcon := hs.excl x hc
        rw [hlock] at hcon
        cases hcon
    · intro x l hx
      replace hx : Function.update s.pc t PC.acquired x = PC.readS l := hx
      show l = s.data
      by_cases hxt : x = t
      · subst hxt
        rw [Function.update_same] at hx
        cases hx
      · rw [Function.update_noteq hxt] at hx
        have hcon := hs.excl x (Or.inr (Or.inl ⟨l, hx⟩))
        rw [hlock] at hcon
        cases hcon
  | readStep t sc htn hpc =>
    refine ⟨?_, ?_, ?_⟩
    · show s.data.Perm (init ++ ((List.range n).filter
          (fun x => donePC (Function.update s.pc t (PC.readS s.data) x))).map v)
      have hfc : (List.range n).filter
            (fun x => donePC (Function.update s.pc t (PC.readS s.data) x))
          = (List.range n).filter (fun x => donePC (s.pc x)) := by
        apply List.filter_congr
        intro x _
        by_cases hxt : x = t
        · subst hxt
          rw [Function.update_same, hpc]
          rfl
        · rw [Function.update_noteq hxt]
      rw [hfc]
      exact hs.perm
    · intro x hc
      replace hc : critical (Function.update s.pc t (PC.readS s.data) x) := hc
      show s.lock = some x
      by_cases hxt : x = t
      · subst hxt
        exact hs.excl x (Or.inl hpc)
      · rw [Function.update_noteq hxt] at hc
        exact hs.excl x hc
    · intro x l hx
      replace hx : Function.update s.pc t (PC.readS s.data) x = PC.readS l := hx
      show l = s.data
      by_cases hxt : x = t
      · subst hxt
        rw [Function.update_same] at hx
        cases hx
        rfl
      · rw [Function.update_noteq hxt] at hx
        exact hs.snap x l hx
  | writeStep t l sc htn hpc =>
    have hl : l = s.data := hs.snap t l hpc
    refine ⟨?_, ?_, ?_⟩
    · show (l ++ [v t]).Perm (init ++ ((List.range n).filter
          (fun x => donePC (Function.update s.pc t PC.written x))).map v)
      have hflip : ((List.range n).filter
            (fun x => donePC (Function.update s.pc t PC.written x))).Perm
          (t :: (List.range n).filter (fun x => donePC (s.pc x))) := by
        apply filter_flip (List.range n) t _ _ (List.nodup_range n)
          (List.mem_range.mpr htn)
        · rw [hpc]
          rfl
        · rw [Function.update_same]
          rfl
        · intro x _ hxt
          rw [Function.update_noteq hxt]
      have h1 : (l ++ [v t]).Perm
          ((init ++ ((List.range n).filter (fun x => donePC (s.pc x))).map v)
            ++ [v t]) := by
        rw [hl]
        exact hs.perm.append_right [v t]
      have h2 : ((init ++ ((List.range n).filter (fun x => donePC (s.pc x))).map v)
            ++ [v t]).Perm
          (init ++ (v t :: ((List.range n).filter (fun x => donePC (s.pc x))).map v)) := by
        rw [List.append_assoc]
        exact List.Perm.append_left init (List.perm_append_singleton _ _)
      have h3 : (init ++ (v t :: ((List.range n).filter
              (fun x => donePC (s.pc x))).map v)).Perm
          (init ++ ((List.range n).filter
            (fun x => donePC (Function.update s.pc t PC.written x))).map v) :=
        List.Perm.append_left init (hflip.map v).symm
      exact h1.trans (h2.trans h3)
    · intro x hc
      replace hc : critical (Function.update s.pc t PC.written x) := hc
      show s.lock = some x
      by_cases hxt : x = t
      · subst hxt
        exact hs.excl x (Or.inr (Or.inl ⟨l, hpc⟩))
      · rw [Function.update_noteq hxt] at hc
        exact hs.excl x hc
    · intro x l2 hx
      replace hx : Function.update s.pc t PC.written x = PC.readS l2 := hx
      show l2 = l ++ [v t]
      by_cases hxt : x = t
      · subst hxt
        rw [Function.update_same] at hx
        cases hx
      · rw [Function.update_noteq hxt] at hx
        have h1 := hs.excl x (Or.inr (Or.inl ⟨l2, hx⟩))
        have h2 := hs.excl t (Or.inr (Or.inl ⟨l, hpc⟩))
        rw [h2] at h1
        cases h1
        exact absurd rfl hxt
  | release t sc htn hpc =>
    refine ⟨?_, ?_, ?_⟩
    · show s.data.Perm (init ++ ((List.range n).filter
          (fun x => donePC (Function.update s.pc t PC.finished x))).map v)
      have hfc : (List.range n).filter
            (fun x => donePC (Function.update s.pc t PC.finished x))
          = (List.range n).filter (fun x => donePC (s.pc x)) := by
        apply List.filter_congr
        intro x _
        by_cases hxt : x = t
        · subst hxt
          rw [Function.update_same, hpc]
          rfl
        · rw [Function.update_noteq hxt]
      rw [hfc]
      exact hs.perm
    · intro x hc
      replace hc : critical (Function.update s.pc t PC.finished x) := hc
      show (none : Option Nat) = some x
      by_cases hxt : x = t
      · subst hxt
        rw [Function.update_same] at hc
        rcases hc with hc | ⟨l2, hc⟩ | hc <;> cases hc
      · rw [Function.update_noteq hxt] at hc
        have h1 := hs.excl x hc
        have h2 := hs.excl t (Or.inr (Or.inr hpc))
        rw [h2] at h1
        cases h1
        exact absurd rfl hxt
    · intro x l2 hx
      replace hx : Function.update s.pc t PC.finished x = PC.readS l2 := hx
      show l2 = s.data
      by_cases hxt : x = t
      · subst hxt
        rw [Function.update_same] at hx
        cases hx
      · rw [Function.update_noteq hxt] at hx
        have h1 := hs.excl x (Or.inr (Or.inl ⟨l2, hx⟩))
        have h2 := hs.excl t (Or.inr (Or.inr hpc))
        rw [h2] at h1
        cases h1
        exact absurd rfl hxt

theorem LInv_reach (n : Nat) (v : Nat → Dict) (init : List Dict)
    (s : LockState)
    (h : Relation.ReflTransGen (LStep n v) (initState init) s) :
    LInv n v init s := by
  induction h with
  | refl => exact LInv_init n v init
  | tail h1 h2 ih => exact LInv_step n v init _ _ ih h2

/-- C8: in any complete interleaved execution of `n` threads each running
the lock-guarded append of its record (the body shared by
`add_to_train_log` and `add_to_prediction_log`, the only mutators of the
guarded sequences, with the append split into its read and its write of the
sequence), the final sequence holds the initial rows plus every thread's
record exactly once — no append is lost or corrupted. -/
theorem C8_locked_appends_not_lost (n : Nat) (v : Nat → Dict) (init : List Dict)
    (s : LockState)
    (hreach : Relation.ReflTransGen (LStep n v) (initState init) s)
    (hdone : ∀ t, t < n → s.pc t = PC.finished) :
    s.data.Perm (init ++ (List.range n).map v)
    ∧ s.data.length = init.length + n := by
  have hinv := LInv_reach n v init s hreach
  have hall : (List.range n).filter (fun t => donePC (s.pc t)) = List.range n := by
    rw [List.filter_eq_self]
    intro t ht
    rw [hdone t (List.mem_range.mp ht)]
    rfl
  have hperm : s.data.Perm (init ++ (List.range n).map v) := by
    have hp := hinv.perm
    rw [hall] at hp
    exact hp
  refine ⟨hperm, ?_⟩
  rw [hperm.length_eq, List.length_append, List.length_map, List.length_range]

/-- C8 witness: one thread runs acquire → read → write → release to
completion from an empty sequence; the theorem yields that its record was
appended exactly once. -/
theorem C8_witness :
    ({ lock := none,
       pc := Function.update (Function.update (Function.update (Function.update
              (fun _ => PC.idle) 0 PC.acquired) 0 (PC.readS [])) 0 PC.written)
              0 PC.finished,
       data := [] ++ [rowA] } : LockState).data.Perm
      ([] ++ (List.range 1).map (fun _ => rowA))
    ∧ ({ lock := none,
         pc := Function.update (Function.update (Function.update (Function.update
                (fun _ => PC.idle) 0 PC.acquired) 0 (PC.readS [])) 0 PC.written)
                0 PC.finished,
         data := [] ++ [rowA] } : LockState).data.length
      = ([] : List Dict).length + 1 :=
  C8_locked_appends_not_lost 1 (fun _ => rowA) [] _
    (Relation.ReflTransGen.tail
      (Relation.ReflTransGen.tail
        (Relation.ReflTransGen.tail
          (Relation.ReflTransGen.tail
            Relation.ReflTransGen.refl
            (LStep.acquire 0 (initState []) (by decide) rfl rfl))
          (LStep.readStep 0 _ (by decide) (by simp)))
        (LStep.writeStep 0 [] _ (by decide) (by simp [initState])))
      (LStep.release 0 _ (by decide) (by simp)))
    (fun t ht => by
      have h0 : t = 0 := by omega
      subst h0
      simp)
